import Mathlib

/-!
Shallow embedding of the chat-session engine of `src/store.js` (zustand
store driving a newline-delimited JSON stream from a local inference
server), together with proofs of the specification claims about it.

Conventions of the embedding:
* JS strings are modelled as Lean `String` / `List Char` (code points);
  the operations the source uses (`indexOf '\n'`, `slice`, `trim`,
  concatenation) behave identically under this modelling.
* JS numbers produced by `JSON.parse` are modelled by their source
  lexeme together with a flag telling whether the mantissa is zero:
  the store never computes with parsed numbers, it only observes their
  truthiness (`if (parsed.message?.content)`), which for a number is
  exactly "not zero (and not NaN)"; NaN is not producible by JSON.
* Fallible parsing returns `Option`; a `none` is JS `JSON.parse` throwing.
-/

namespace Llama

/-- A JSON value as produced by `JSON.parse`.  Object fields are kept in
source order, duplicates included; JS duplicate-key semantics (last
assignment wins) lives in `Json.getField`. -/
inductive Json where
  | null : Json
  | bool (b : Bool) : Json
  | num (zero : Bool) (lexeme : String) : Json
  | str (s : String) : Json
  | arr (elems : List Json) : Json
  | obj (fields : List (String × Json)) : Json
deriving Repr, Inhabited

/-- Property access `o[k]` under JS semantics: `undefined` (here `none`)
on non-objects or absent keys; for duplicated keys the last value wins. -/
def Json.getField : Json → String → Option Json
  | .obj fields, k =>
      fields.foldl (fun acc kv => if kv.1 = k then some kv.2 else acc) none
  | _, _ => none

/-- JS truthiness of a parsed JSON value (`if (v)`).  `undefined` never
reaches this function: absent fields are `none` before it is asked. -/
def Json.truthy : Json → Bool
  | .null => false
  | .bool b => b
  | .num zero _ => !zero
  | .str s => !s.isEmpty
  | .arr _ => true
  | .obj _ => true

mutual

/-- JS string coercion (`aiText += content`).  For numbers the lexeme is
used; the store only ever receives string contents, so the inexactness
of `1e2 → "1e2"` (JS would print `"100"`) is unobservable. -/
def Json.jsString : Json → String
  | .null => "null"
  | .bool b => if b then "true" else "false"
  | .num _ lexeme => lexeme
  | .str s => s
  | .arr elems => String.intercalate "," (Json.jsStringElems elems)
  | .obj _ => "[object Object]"

/-- Coercions of the elements of an array (`Array.prototype.toString`). -/
def Json.jsStringElems : List Json → List String
  | [] => []
  | j :: js => j.jsString :: Json.jsStringElems js

end

/-! ### `JSON.parse`, modelled on `List Char` with explicit fuel. -/

/-- The whitespace `JSON.parse` skips between tokens. -/
def jsonWs (c : Char) : Bool :=
  c = ' ' ∨ c = '\t' ∨ c = '\n' ∨ c = '\r'

/-- Skip JSON inter-token whitespace. -/
def skipWs : List Char → List Char
  | [] => []
  | c :: cs => if jsonWs c then skipWs cs else c :: cs

/-- Value of one hex digit, if any. -/
def hexVal (c : Char) : Option Nat :=
  if '0' ≤ c ∧ c ≤ '9' then some (c.toNat - '0'.toNat)
  else if 'a' ≤ c ∧ c ≤ 'f' then some (c.toNat - 'a'.toNat + 10)
  else if 'A' ≤ c ∧ c ≤ 'F' then some (c.toNat - 'A'.toNat + 10)
  else none

/-- Decimal digit test. -/
def isDigit (c : Char) : Bool := '0' ≤ c ∧ c ≤ '9'

/-- Parse exactly four hex digits into a code unit. -/
def parse4Hex : List Char → Option (Nat × List Char)
  | a :: b :: c :: d :: rest => do
      let va ← hexVal a
      let vb ← hexVal b
      let vc ← hexVal c
      let vd ← hexVal d
      pure (((va * 16 + vb) * 16 + vc) * 16 + vd, rest)
  | _ => none

/-- Parse the body of a JSON string literal after the opening quote; the
result is the decoded content and the input after the closing quote.
Surrogate pairs written as two `\uXXXX` escapes combine to one code
point (JS works on UTF-16 code units; a lone surrogate cannot be
represented in a Lean `Char` and degrades to `Char.ofNat`'s fallback,
never hit by any input in this development). -/
def parseStrBody : Nat → List Char → Option (List Char × List Char)
  | 0, _ => none
  | _, [] => none
  | fuel + 1, c :: cs =>
    if c = '"' then
      some ([], cs)
    else if c = '\\' then
      match cs with
      | [] => none
      | e :: cs2 =>
        if e = 'u' then
          match parse4Hex cs2 with
          | none => none
          | some (u, cs3) =>
            if 0xD800 ≤ u ∧ u ≤ 0xDBFF then
              -- possible high surrogate: try to pair with a following \uXXXX
              match cs3 with
              | '\\' :: 'u' :: cs4 =>
                match parse4Hex cs4 with
                | some (u2, cs5) =>
                  if 0xDC00 ≤ u2 ∧ u2 ≤ 0xDFFF then
                    (parseStrBody fuel cs5).map (fun r =>
                      (Char.ofNat (0x10000 + (u - 0xD800) * 0x400 + (u2 - 0xDC00)) :: r.1, r.2))
                  else
                    (parseStrBody fuel cs3).map (fun r => (Char.ofNat u :: r.1, r.2))
                | none =>
                  (parseStrBody fuel cs3).map (fun r => (Char.ofNat u :: r.1, r.2))
              | _ => (parseStrBody fuel cs3).map (fun r => (Char.ofNat u :: r.1, r.2))
            else
              (parseStrBody fuel cs3).map (fun r => (Char.ofNat u :: r.1, r.2))
        else
          let decoded : Option Char :=
            if e = '"' then some '"'
            else if e = '\\' then some '\\'
            else if e = '/' then some '/'
            else if e = 'b' then some (Char.ofNat 8)
            else if e = 'f' then some (Char.ofNat 12)
            else if e = 'n' then some '\n'
            else if e = 'r' then some '\r'
            else if e = 't' then some '\t'
            else none
          match decoded with
          | none => none
          | some d => (parseStrBody fuel cs2).map (fun r => (d :: r.1, r.2))
    else if c.toNat < 0x20 then
      none  -- unescaped control character: JSON.parse throws
    else
      (parseStrBody fuel cs).map (fun r => (c :: r.1, r.2))

/-- Parse a JSON number (after an optional leading minus has been seen
by the caller); returns (mantissa-is-zero, lexeme-after-minus, rest). -/
def parseNumTail (l : List Char) : Option (Bool × List Char × List Char) := do
  -- int part: 0 | [1-9][0-9]*
  let (intPart, rest1) ←
    match l with
    | '0' :: rest => some ([('0' : Char)], rest)
    | c :: rest =>
      if isDigit c ∧ c ≠ '0' then
        some (c :: rest.takeWhile isDigit, rest.dropWhile isDigit)
      else none
    | [] => none
  -- frac part: (. [0-9]+)?
  let (fracPart, rest2) ←
    match rest1 with
    | '.' :: rest =>
      let ds := rest.takeWhile isDigit
      if ds.isEmpty then none
      else some ('.' :: ds, rest.dropWhile isDigit)
    | _ => some (([] : List Char), rest1)
  -- exp part: ([eE][+-]?[0-9]+)?
  let (expPart, rest3) ←
    match rest2 with
    | e :: rest =>
      if e = 'e' ∨ e = 'E' then
        match rest with
        | s :: rest' =>
          if s = '+' ∨ s = '-' then
            let ds := rest'.takeWhile isDigit
            if ds.isEmpty then none
            else some (e :: s :: ds, rest'.dropWhile isDigit)
          else
            let ds := rest.takeWhile isDigit
            if ds.isEmpty then none
            else some (e :: ds, rest.dropWhile isDigit)
        | [] => none
      else some (([] : List Char), rest2)
    | [] => some (([] : List Char), rest2)
  let zero := (intPart ++ fracPart).all (fun c => c = '0' ∨ c = '.')
  pure (zero, intPart ++ fracPart ++ expPart, rest3)

mutual

/-- Parse one JSON value (leading whitespace already skipped). -/
def parseVal : Nat → List Char → Option (Json × List Char)
  | 0, _ => none
  | _, [] => none
  | fuel + 1, c :: cs =>
    if c = '"' then
      (parseStrBody fuel cs).map (fun r => (Json.str (String.mk r.1), r.2))
    else if c = '{' then
      parseObjRest fuel (skipWs cs) true
    else if c = '[' then
      parseArrRest fuel (skipWs cs) true
    else if c = 't' then
      match cs with
      | 'r' :: 'u' :: 'e' :: rest => some (Json.bool true, rest)
      | _ => none
    else if c = 'f' then
      match cs with
      | 'a' :: 'l' :: 's' :: 'e' :: rest => some (Json.bool false, rest)
      | _ => none
    else if c = 'n' then
      match cs with
      | 'u' :: 'l' :: 'l' :: rest => some (Json.null, rest)
      | _ => none
    else if c = '-' then
      (parseNumTail cs).map (fun r => (Json.num r.1 (String.mk ('-' :: r.2.1)), r.2.2))
    else if isDigit c then
      (parseNumTail (c :: cs)).map (fun r => (Json.num r.1 (String.mk r.2.1), r.2.2))
    else none

/-- Parse the members of an object after `{` (whitespace skipped);
`first` tells whether no member has been parsed yet. -/
def parseObjRest : Nat → List Char → Bool → Option (Json × List Char)
  | 0, _, _ => none
  | _, [], _ => none
  | fuel + 1, c :: cs, first =>
    if c = '}' ∧ first then
      some (Json.obj [], cs)
    else do
      -- key
      let (key, rest1) ←
        if c = '"' then parseStrBody fuel cs else none
      let rest2 := skipWs rest1
      let rest3 ←
        match rest2 with
        | ':' :: r => some (skipWs r)
        | _ => none
      let (v, rest4) ← parseVal fuel rest3
      let rest5 := skipWs rest4
      match rest5 with
      | ',' :: r =>
        let (tail, rest6) ← parseObjRest fuel (skipWs r) false
        match tail with
        | Json.obj fields => some (Json.obj ((String.mk key, v) :: fields), rest6)
        | _ => none
      | '}' :: r => some (Json.obj [(String.mk key, v)], r)
      | _ => none

/-- Parse the elements of an array after `[` (whitespace skipped). -/
def parseArrRest : Nat → List Char → Bool → Option (Json × List Char)
  | 0, _, _ => none
  | _, [], _ => none
  | fuel + 1, c :: cs, first =>
    if c = ']' ∧ first then
      some (Json.arr [], cs)
    else do
      let (v, rest1) ← parseVal fuel (c :: cs)
      let rest2 := skipWs rest1
      match rest2 with
      | ',' :: r =>
        let (tail, rest3) ← parseArrRest fuel (skipWs r) false
        match tail with
        | Json.arr elems => some (Json.arr (v :: elems), rest3)
        | _ => none
      | ']' :: r => some (Json.arr [v], r)
      | _ => none

end

/-- `JSON.parse(line)`: parse one complete JSON text, requiring the whole
input to be consumed (up to trailing whitespace).  The fuel `2·len + 2`
dominates the recursion depth: every recursive call either consumes an
input character or is the single per-element value call of an array or
object, of which there are at most `len`. -/
def jsonParse (l : List Char) : Option Json :=
  match parseVal (2 * l.length + 2) (skipWs l) with
  | some (v, rest) => if (skipWs rest).isEmpty then some v else none
  | none => none

/-! ### `TextDecoder` with `{ stream: true }`

The WHATWG UTF-8 decoder is specified byte by byte; `decoder.decode(chunk,
{stream: true})` feeds the chunk's bytes through this state machine and
keeps the machine state (an in-progress multi-byte sequence) for the next
call.  Invalid bytes emit U+FFFD and may be reprocessed, per the spec. -/

/-- State of the incremental UTF-8 decoder. -/
structure DecState where
  codepoint : Nat := 0
  bytesNeeded : Nat := 0
  bytesSeen : Nat := 0
  lowerBoundary : Nat := 0x80
  upperBoundary : Nat := 0xBF
deriving Repr, DecidableEq, Inhabited

/-- The replacement character U+FFFD. -/
def replacementChar : Char := Char.ofNat 0xFFFD

/-- Classify a byte arriving with no multi-byte sequence in progress. -/
def utf8Start (b : Nat) : DecState × List Char :=
  if b ≤ 0x7F then
    ({}, [Char.ofNat b])
  else if 0xC2 ≤ b ∧ b ≤ 0xDF then
    ({ codepoint := b % 32, bytesNeeded := 1 }, [])
  else if 0xE0 ≤ b ∧ b ≤ 0xEF then
    ({ codepoint := b % 16, bytesNeeded := 2,
       lowerBoundary := if b = 0xE0 then 0xA0 else 0x80,
       upperBoundary := if b = 0xED then 0x9F else 0xBF }, [])
  else if 0xF0 ≤ b ∧ b ≤ 0xF4 then
    ({ codepoint := b % 8, bytesNeeded := 3,
       lowerBoundary := if b = 0xF0 then 0x90 else 0x80,
       upperBoundary := if b = 0xF4 then 0x8F else 0xBF }, [])
  else
    ({}, [replacementChar])

/-- One step of the WHATWG UTF-8 decoder: state plus next byte gives the
next state and the characters emitted.  A continuation byte outside the
current boundaries emits U+FFFD and reprocesses the byte from the
initial state. -/
def utf8Step (s : DecState) (b : Nat) : DecState × List Char :=
  if s.bytesNeeded = 0 then
    utf8Start b
  else if s.lowerBoundary ≤ b ∧ b ≤ s.upperBoundary then
    let cp := s.codepoint * 64 + b % 64
    let seen := s.bytesSeen + 1
    if seen = s.bytesNeeded then
      ({}, [Char.ofNat cp])
    else
      ({ s with codepoint := cp, bytesSeen := seen }, [])
  else
    let (s2, out) := utf8Start b
    (s2, replacementChar :: out)

/-- Feed a chunk of bytes to the decoder, accumulating emitted text. -/
def utf8Feed (s : DecState) : List Nat → DecState × List Char
  | [] => (s, [])
  | b :: rest =>
    let r1 := utf8Step s b
    let r2 := utf8Feed r1.1 rest
    (r2.1, r1.2 ++ r2.2)

/-! ### The line buffer of the stream loop

`buffer += decoder.decode(value, {stream:true})` followed by the inner
`while ((boundary = buffer.indexOf('\n')) >= 0)` loop, which emits the
text before each newline and keeps the remainder. -/

/-- Repeatedly split the buffer at `'\n'`, returning the complete lines
(in order) and the remaining buffered text after the last newline. -/
def extractLines : List Char → List (List Char) × List Char
  | [] => ([], [])
  | c :: cs =>
    if c = '\n' then
      let r := extractLines cs
      ([] :: r.1, r.2)
    else
      let r := extractLines cs
      match r.1 with
      | [] => ([], c :: cs)
      | l :: ls => ((c :: l) :: ls, r.2)

/-- JS `line.trim()` removing ASCII whitespace (the protocol only ever
produces ASCII whitespace between records). -/
def jsWs (c : Char) : Bool :=
  c = ' ' ∨ c = '\t' ∨ c = '\n' ∨ c = '\r' ∨ c = Char.ofNat 11 ∨ c = Char.ofNat 12

/-- `!line.trim()`: the line is blank (empty or whitespace-only) and is
skipped by the stream loop. -/
def isBlank (l : List Char) : Bool := l.all jsWs

/-! ### The data model of the store (`useChatStore`) -/

/-- A message.  `isStreaming` is `Option Bool`: user messages are created
without the property (`none`), the assistant placeholder with
`some true`; JSON round-trips preserve an absent property as absent. -/
structure Message where
  text : String
  sender : String
  timestamp : String
  isStreaming : Option Bool := none
deriving Repr, DecidableEq, Inhabited

/-- A chat session. -/
structure Chat where
  id : String
  title : String
  model : String
  messages : List Message
  createdAt : String
deriving Repr, DecidableEq, Inhabited

/-- The persisted value-state of the store: the session collection and
the active-session pointer.  (The remaining store fields —
`availableModels`, `loadingModels`, `apiError`, `tokenSpeed` — are not
touched by any claim and are omitted.) -/
structure StoreState where
  chats : List Chat
  currentChatId : Option String
deriving Repr, DecidableEq, Inhabited

/-- `createChat(title, model)`: throws on a falsy model (`none` result),
otherwise prepends the new session and makes it active.  The fresh id
and timestamp are parameters (the source draws them from `uuidv4()` and
`new Date()`). -/
def createChat (s : StoreState) (title model newId createdAt : String) :
    Option (StoreState × String) :=
  if model.isEmpty then none
  else
    let newChat : Chat :=
      { id := newId, title := if title.isEmpty then "New Chat" else title,
        model := model, messages := [], createdAt := createdAt }
    some ({ chats := newChat :: s.chats, currentChatId := some newChat.id }, newChat.id)

/-- `addMessage(chatId, message)`: append to the named session; silently
a no-op when no session matches. -/
def addMessage (s : StoreState) (chatId : String) (message : Message) : StoreState :=
  { s with
    chats := s.chats.map (fun c =>
      if c.id == chatId then { c with messages := c.messages ++ [message] } else c) }

/-- `deleteChat(chatId)`. -/
def deleteChat (s : StoreState) (chatId : String) : StoreState :=
  { chats := s.chats.filter (fun c => c.id != chatId),
    currentChatId := if s.currentChatId = some chatId then none else s.currentChatId }

/-- `setCurrentChat(chatId)`: no existence check. -/
def setCurrentChat (s : StoreState) (chatId : String) : StoreState :=
  { s with currentChatId := some chatId }

/-! ### `sendMessage`

The call is embedded as the list of store mutations (`set` calls) it
performs, in order, so that "runs exactly once" claims are statements
about the event list and state claims are statements about the folded
result.  The network is a parameter: `StreamOutcome` says whether the
fetch failed outright, and otherwise which byte chunks `reader.read()`
delivered and whether the read loop ended cleanly or threw. -/

/-- One entry of the `messages` array of the `POST /api/chat` body. -/
structure WireMessage where
  role : String
  content : String
deriving Repr, DecidableEq, Inhabited

/-- The request body's `messages`: the captured `chat.messages` (read
before anything was appended) minus any message carrying the new user
message's timestamp, roles translated, then the new text as the final
user turn. -/
def requestMessages (chat : Chat) (userTs messageText : String) : List WireMessage :=
  (chat.messages.filter (fun m => m.timestamp != userTs)).map
    (fun m => { role := if m.sender == "user" then "user" else "assistant", content := m.text })
  ++ [{ role := "user", content := messageText }]

/-- How the network behaved during one `sendMessage` call. -/
inductive StreamOutcome where
  /-- `fetch` rejected, `!response.ok`, or the response had no readable
  body; `msg` is the thrown error's message. -/
  | httpError (msg : String) : StreamOutcome
  /-- The reader delivered `chunks` in order; then either the stream
  ended cleanly (`readError = none`) or the next read threw. -/
  | stream (chunks : List (List Nat)) (readError : Option String) : StreamOutcome
deriving Repr, DecidableEq, Inhabited

/-- One store mutation performed by `sendMessage` (one `set` call). -/
inductive SendEvent where
  | appendUser (m : Message) : SendEvent
  | appendAi (m : Message) : SendEvent
  /-- The per-delta update: every message of the target chat whose
  timestamp matches gets `text := newText` (the accumulated `aiText`). -/
  | applyDelta (aiTs newText : String) : SendEvent
  /-- The `catch` block: error text plus `isStreaming: false`. -/
  | markError (aiTs errText : String) : SendEvent
  /-- The final `set` clearing `isStreaming`. -/
  | finalize (aiTs : String) : SendEvent
deriving Repr, DecidableEq, Inhabited

/-- The per-chat transformation of one event (the function the source
maps over `chat.messages` inside the chat hit by the id test). -/
def eventChatUpdate (e : SendEvent) (c : Chat) : Chat :=
  match e with
  | .appendUser m => { c with messages := c.messages ++ [m] }
  | .appendAi m => { c with messages := c.messages ++ [m] }
  | .applyDelta ts txt =>
    { c with messages := c.messages.map (fun m =>
        if m.timestamp == ts then { m with text := txt } else m) }
  | .markError ts err =>
    { c with messages := c.messages.map (fun m =>
        if m.timestamp == ts then { m with text := err, isStreaming := some false } else m) }
  | .finalize ts =>
    { c with messages := c.messages.map (fun m =>
        if m.timestamp == ts then { m with isStreaming := some false } else m) }

/-- Apply one `set` of `sendMessage` to the store: every chat matching
the id is transformed (the source maps over all of `state.chats`). -/
def applyEvent (chatId : String) (s : StoreState) (e : SendEvent) : StoreState :=
  { s with chats := s.chats.map (fun c => if c.id == chatId then eventChatUpdate e c else c) }

/-- Apply a list of mutations in order. -/
def applyEvents (chatId : String) (s : StoreState) (es : List SendEvent) : StoreState :=
  es.foldl (applyEvent chatId) s

/-- `JSON.parse(line)` followed by the `parsed.message?.content`
truthiness test: the content delta a complete line contributes, if any.
`none` covers all three skip cases: the parse threw (logged, line
skipped), the field chain was `undefined`, or the content was falsy. -/
def lineDelta (line : List Char) : Option String :=
  match jsonParse line with
  | none => none
  | some parsed =>
    match (parsed.getField "message").bind (fun m => m.getField "content") with
    | none => none
    | some content => if content.truthy then some content.jsString else none

/-- The local variables of the stream loop: decoder state, line buffer,
accumulated `aiText`, and the token estimate.  `tokenQuarters` counts
`content.length` units, i.e. four times the source's
`tokenCount += content.length / 4` (kept integral; only its zeroness and
monotonicity are ever observed by the claims). -/
structure LoopState where
  dec : DecState := {}
  buf : List Char := []
  aiText : String := ""
  tokenQuarters : Nat := 0
deriving Repr, DecidableEq, Inhabited

/-- Process one complete line inside the inner `while` loop: blank lines
are skipped before parsing; an accepted delta extends `aiText`, counts
tokens, and issues the identity-keyed store update. -/
def processLine (aiTs : String) (st : String × Nat) (line : List Char) :
    (String × Nat) × List SendEvent :=
  if isBlank line then (st, [])
  else
    match lineDelta line with
    | none => (st, [])
    | some content =>
      ((st.1 ++ content, st.2 + content.length),
       [SendEvent.applyDelta aiTs (st.1 ++ content)])

/-- Process the complete lines extracted from one chunk, in order. -/
def processLines (aiTs : String) (st : String × Nat) :
    List (List Char) → (String × Nat) × List SendEvent
  | [] => (st, [])
  | l :: ls =>
    let r1 := processLine aiTs st l
    let r2 := processLines aiTs r1.1 ls
    (r2.1, r1.2 ++ r2.2)

/-- One iteration of the outer `while (!done)` loop for a delivered
chunk: decode it statefully, extract the complete lines, process them. -/
def feedChunk (aiTs : String) (st : LoopState) (chunk : List Nat) :
    LoopState × List SendEvent :=
  let d := utf8Feed st.dec chunk
  let e := extractLines (st.buf ++ d.2)
  let p := processLines aiTs (st.aiText, st.tokenQuarters) e.1
  ({ dec := d.1, buf := e.2, aiText := p.1.1, tokenQuarters := p.1.2 }, p.2)

/-- Run the read loop over all delivered chunks. -/
def runStream (aiTs : String) (st : LoopState) :
    List (List Nat) → LoopState × List SendEvent
  | [] => (st, [])
  | ch :: rest =>
    let r1 := feedChunk aiTs st ch
    let r2 := runStream aiTs r1.1 rest
    (r2.1, r1.2 ++ r2.2)

/-- The final-buffer step after a clean stream end (source lines
185–196): a parsable trailing record's content is appended to the local
`aiText`, but **no store update is issued** — the source has no `set`
call there, only the comment `// Update state with final content`. -/
def flushBuffer (st : LoopState) : LoopState :=
  if isBlank st.buf then st
  else
    match lineDelta st.buf with
    | none => st
    | some content => { st with aiText := st.aiText ++ content }

/-- The full `sendMessage(chatId, messageText)` call: `none` when the
session lookup fails (the call throws before any mutation); otherwise
the ordered list of store mutations it performs, together with the
request body it sent.  The fresh uuid timestamps are parameters. -/
def sendMessageRun (s : StoreState) (chatId messageText userTs aiTs : String)
    (outcome : StreamOutcome) : Option (List SendEvent × List WireMessage) :=
  match s.chats.find? (fun c => c.id == chatId) with
  | none => none
  | some chat =>
    let userMessage : Message :=
      { text := messageText, sender := "user", timestamp := userTs }
    let aiMessage : Message :=
      { text := "", sender := "ai", timestamp := aiTs, isStreaming := some true }
    let req := requestMessages chat userTs messageText
    let pre := [SendEvent.appendUser userMessage, SendEvent.appendAi aiMessage]
    match outcome with
    | .httpError msg =>
      some (pre ++ [SendEvent.markError aiTs ("Error: " ++ msg), SendEvent.finalize aiTs], req)
    | .stream chunks readError =>
      let r := runStream aiTs {} chunks
      match readError with
      | none => some (pre ++ r.2 ++ [SendEvent.finalize aiTs], req)
      | some msg =>
        some (pre ++ r.2 ++ [SendEvent.markError aiTs ("Error: " ++ msg), SendEvent.finalize aiTs], req)

/-- `sendMessage` as a state transformer: the final store state and, on
the lookup failure path, the thrown error's message. -/
def sendMessage (s : StoreState) (chatId messageText userTs aiTs : String)
    (outcome : StreamOutcome) : StoreState × Option String :=
  match sendMessageRun s chatId messageText userTs aiTs outcome with
  | none => (s, some "Chat not found")
  | some r => (applyEvents chatId s r.1, none)

/-! ### Persistence (`persist(..., { name: "chat-storage", getStorage: () => localStorage })`)

The middleware writes `JSON.stringify` of the value-state after every
mutation and rehydrates with `JSON.parse` on startup, merging the parsed
fields back over the initial state.  The string layer
(`JSON.stringify`/`JSON.parse`) is a faithful inverse pair on the tree
below, so serialization is modelled at the JSON-tree level: `encode*`
is the tree `JSON.stringify` walks (one field per defined property —
`JSON.stringify` drops properties holding `undefined`, hence an absent
`isStreaming` stays absent) and `decode*` is the rehydration read. -/

/-- Read a JSON string, failing on other shapes. -/
def Json.asStr : Json → Option String
  | .str s => some s
  | _ => none

/-- The JSON tree of one message. -/
def encodeMessage (m : Message) : Json :=
  Json.obj
    ([("text", Json.str m.text), ("sender", Json.str m.sender),
      ("timestamp", Json.str m.timestamp)] ++
      (match m.isStreaming with
       | none => []
       | some b => [("isStreaming", Json.bool b)]))

/-- The JSON tree of one chat session. -/
def encodeChat (c : Chat) : Json :=
  Json.obj
    [("id", Json.str c.id), ("title", Json.str c.title),
     ("model", Json.str c.model),
     ("messages", Json.arr (c.messages.map encodeMessage)),
     ("createdAt", Json.str c.createdAt)]

/-- The JSON tree of the persisted store value-state. -/
def encodeState (s : StoreState) : Json :=
  Json.obj
    [("chats", Json.arr (s.chats.map encodeChat)),
     ("currentChatId",
      match s.currentChatId with
      | none => Json.null
      | some i => Json.str i)]

/-- Rehydrate one message: every defined property comes back exactly as
stored; no field is rewritten. -/
def decodeMessage (j : Json) : Option Message := do
  let text ← (j.getField "text").bind Json.asStr
  let sender ← (j.getField "sender").bind Json.asStr
  let timestamp ← (j.getField "timestamp").bind Json.asStr
  let isStreaming ←
    match j.getField "isStreaming" with
    | none => some none
    | some (Json.bool b) => some (some b)
    | some _ => none
  pure { text := text, sender := sender, timestamp := timestamp, isStreaming := isStreaming }

/-- Rehydrate each element of a stored message array. -/
def decodeMsgList : List Json → Option (List Message)
  | [] => some []
  | j :: js => do
    let m ← decodeMessage j
    let ms ← decodeMsgList js
    pure (m :: ms)

/-- Rehydrate one chat session. -/
def decodeChat (j : Json) : Option Chat := do
  let id ← (j.getField "id").bind Json.asStr
  let title ← (j.getField "title").bind Json.asStr
  let model ← (j.getField "model").bind Json.asStr
  let messages ←
    match j.getField "messages" with
    | some (Json.arr elems) => decodeMsgList elems
    | _ => none
  let createdAt ← (j.getField "createdAt").bind Json.asStr
  pure { id := id, title := title, model := model, messages := messages, createdAt := createdAt }

/-- Rehydrate each element of the stored chats array. -/
def decodeChatList : List Json → Option (List Chat)
  | [] => some []
  | j :: js => do
    let c ← decodeChat j
    let cs ← decodeChatList js
    pure (c :: cs)

/-- Rehydrate the persisted store value-state. -/
def decodeState (j : Json) : Option StoreState := do
  let chats ←
    match j.getField "chats" with
    | some (Json.arr elems) => decodeChatList elems
    | _ => none
  let currentChatId ←
    match j.getField "currentChatId" with
    | some Json.null => some none
    | some (Json.str i) => some (some i)
    | _ => none
  pure { chats := chats, currentChatId := currentChatId }

/-- Modelled from the spec: the load-time reconciliation the round-trip
claim describes — "any message still marked streaming at serialization
time is reconciled to non-streaming on load".  No code in the repository
implements this; the definition exists to compare the claimed behaviour
with the actual rehydration. -/
def reconcileStreaming (s : StoreState) : StoreState :=
  { s with
    chats := s.chats.map (fun c =>
      { c with messages := c.messages.map (fun m =>
          if m.isStreaming = some true then { m with isStreaming := some false } else m) }) }

/-! ## Helper lemmas -/

/-- Every mutation of `sendMessage` leaves a chat's identifier alone. -/
theorem eventChatUpdate_id (e : SendEvent) (c : Chat) : (eventChatUpdate e c).id = c.id := by
  cases e <;> rfl

/-- The per-chat composition of a whole event list. -/
def applyEventsChat (es : List SendEvent) (c : Chat) : Chat :=
  es.foldl (fun c e => eventChatUpdate e c) c

theorem applyEventsChat_nil (c : Chat) : applyEventsChat [] c = c := rfl

theorem applyEventsChat_cons (e : SendEvent) (es : List SendEvent) (c : Chat) :
    applyEventsChat (e :: es) c = applyEventsChat es (eventChatUpdate e c) := rfl

theorem applyEventsChat_append (es1 es2 : List SendEvent) (c : Chat) :
    applyEventsChat (es1 ++ es2) c = applyEventsChat es2 (applyEventsChat es1 c) :=
  List.foldl_append ..

theorem applyEventsChat_id (es : List SendEvent) (c : Chat) :
    (applyEventsChat es c).id = c.id := by
  induction es generalizing c with
  | nil => rfl
  | cons e es ih => rw [applyEventsChat_cons, ih, eventChatUpdate_id]

/-- Folding the event list over the store is the same as transforming
each matching chat by the composed per-chat update. -/
theorem applyEvents_eq_map (chatId : String) (es : List SendEvent) (s : StoreState) :
    applyEvents chatId s es =
      { chats := s.chats.map (fun c => if c.id == chatId then applyEventsChat es c else c),
        currentChatId := s.currentChatId } := by
  induction es generalizing s with
  | nil =>
    simp only [applyEvents, List.foldl_nil, applyEventsChat_nil, ite_self]
    cases s
    simp
  | cons e es ih =>
    show applyEvents chatId (applyEvent chatId s e) es = _
    rw [ih]
    simp only [applyEvent, List.map_map]
    congr 1
    apply List.map_congr_left
    intro c _
    by_cases hc : c.id == chatId
    · simp only [Function.comp_apply, hc, if_pos, eventChatUpdate_id, applyEventsChat_cons]
    · simp only [Function.comp_apply, hc, if_neg, Bool.false_eq_true, not_false_eq_true]

/-- `applyEvents` never changes the active-session pointer. -/
theorem applyEvents_currentChatId (chatId : String) (es : List SendEvent) (s : StoreState) :
    (applyEvents chatId s es).currentChatId = s.currentChatId := by
  rw [applyEvents_eq_map]

/-- Discriminator for the final `set`. -/
def SendEvent.isFinalize : SendEvent → Bool
  | .finalize _ => true
  | _ => false

/-- Discriminator for a per-delta `set`. -/
def SendEvent.isDelta : SendEvent → Bool
  | .applyDelta _ _ => true
  | _ => false

theorem processLine_events_delta (aiTs : String) (st : String × Nat) (l : List Char) :
    ∀ e ∈ (processLine aiTs st l).2, e.isDelta := by
  unfold processLine
  by_cases hb : isBlank l
  · simp [hb]
  · simp only [hb, Bool.false_eq_true, if_neg, not_false_eq_true]
    cases lineDelta l <;> simp [SendEvent.isDelta]

theorem processLines_events_delta (aiTs : String) (st : String × Nat) (ls : List (List Char)) :
    ∀ e ∈ (processLines aiTs st ls).2, e.isDelta := by
  induction ls generalizing st with
  | nil => simp [processLines]
  | cons l ls ih =>
    simp only [processLines, List.mem_append]
    rintro e (he | he)
    · exact processLine_events_delta aiTs st l e he
    · exact ih _ e he

theorem runStream_events_delta (aiTs : String) (st : LoopState) (chunks : List (List Nat)) :
    ∀ e ∈ (runStream aiTs st chunks).2, e.isDelta := by
  induction chunks generalizing st with
  | nil => simp [runStream]
  | cons ch rest ih =>
    simp only [runStream, List.mem_append]
    rintro e (he | he)
    · exact processLines_events_delta _ _ _ e he
    · exact ih _ e he

theorem isDelta_not_isFinalize (e : SendEvent) (h : e.isDelta) : ¬ e.isFinalize := by
  cases e <;> simp_all [SendEvent.isDelta, SendEvent.isFinalize]

/-- After the finalize `set`, every message of the target chat carrying
the placeholder's identity key is marked non-streaming. -/
theorem applyEvent_finalize_clears (chatId ts : String) (s : StoreState) :
    ∀ c ∈ (applyEvent chatId s (SendEvent.finalize ts)).chats, c.id = chatId →
      ∀ m ∈ c.messages, m.timestamp = ts → m.isStreaming = some false := by
  intro c hc hidc m hm hts
  simp only [applyEvent, List.mem_map] at hc
  obtain ⟨c0, _, rfl⟩ := hc
  by_cases h0 : c0.id == chatId
  · simp only [h0, if_pos] at hm
    simp only [eventChatUpdate, List.mem_map] at hm
    obtain ⟨m0, _, rfl⟩ := hm
    by_cases hm0 : m0.timestamp == ts
    · simp [hm0]
    · simp only [hm0, Bool.false_eq_true, if_neg, not_false_eq_true] at hts ⊢
      exact absurd hts (by simpa using hm0)
  · simp only [h0, Bool.false_eq_true, if_neg, not_false_eq_true] at hidc
    exact absurd (by simpa using hidc) (by simpa using h0)

/-! ## Claim C8 — unknown chat identifier -/

/-- C8: a `sendMessage` whose `chatId` resolves to no session fails with
the validation error (`throw new Error("Chat not found")`) and the store
— the chats list and every session's message list — is unchanged. -/
theorem unknown_chat_rejected (s : StoreState) (chatId messageText userTs aiTs : String)
    (outcome : StreamOutcome) (h : ∀ c ∈ s.chats, c.id ≠ chatId) :
    sendMessage s chatId messageText userTs aiTs outcome = (s, some "Chat not found") := by
  have hf : s.chats.find? (fun c => c.id == chatId) = none := by
    rw [List.find?_eq_none]
    intro c hc
    simpa using h c hc
  simp [sendMessage, sendMessageRun, hf]

/-- Witness for C8 at a concrete store and unknown identifier. -/
theorem unknown_chat_rejected_witness :
    sendMessage { chats := [{ id := "c1", title := "T", model := "m1", messages := [],
                              createdAt := "t0" }], currentChatId := some "c1" }
        "nope" "hi" "u1" "a1" (StreamOutcome.stream [] none)
      = ({ chats := [{ id := "c1", title := "T", model := "m1", messages := [],
                       createdAt := "t0" }], currentChatId := some "c1" }, some "Chat not found") :=
  unknown_chat_rejected _ "nope" "hi" "u1" "a1" _ (by decide)

/-! ## Claim C10 — empty-string content is falsy and yields no delta -/

/-- C10: a well-formed record whose `message.content` is present but
equal to `""` fails the truthiness test `if (parsed.message?.content)`,
so processing its line leaves the accumulated `aiText`, the token count,
and the store (no `set` event) unchanged. -/
theorem empty_content_no_delta (line : List Char) (v : Json) (aiTs : String) (st : String × Nat)
    (hp : jsonParse line = some v)
    (hc : (v.getField "message").bind (fun m => m.getField "content") = some (Json.str "")) :
    processLine aiTs st line = (st, []) := by
  unfold processLine
  by_cases hb : isBlank line
  · simp [hb]
  · simp only [hb, Bool.false_eq_true, if_neg, not_false_eq_true, lineDelta, hp, hc, Json.truthy]
    rfl

/-- Witness for C10 at the record `{"message":{"content":""}}`. -/
theorem empty_content_no_delta_witness :
    processLine "a1" ("He", 2) ("\x7b\"message\":\x7b\"content\":\"\"\x7d\x7d".data) = (("He", 2), []) :=
  empty_content_no_delta _ (Json.obj [("message", Json.obj [("content", Json.str "")])])
    "a1" ("He", 2) (by rfl) (by rfl)

/-! ## Claim C3 — persistence round-trip -/

theorem decodeMessage_encodeMessage (m : Message) : decodeMessage (encodeMessage m) = some m := by
  cases m with
  | mk text sender timestamp isStreaming => cases isStreaming <;> rfl

theorem decodeMsgList_encode (ms : List Message) :
    decodeMsgList (ms.map encodeMessage) = some ms := by
  induction ms with
  | nil => rfl
  | cons m ms ih => simp [decodeMsgList, decodeMessage_encodeMessage m, ih]

theorem decodeChat_encodeChat (c : Chat) : decodeChat (encodeChat c) = some c := by
  cases c with
  | mk id title model messages createdAt =>
    have h : decodeChat (encodeChat ⟨id, title, model, messages, createdAt⟩)
        = (decodeMsgList (messages.map encodeMessage)).bind
            (fun ms => some ⟨id, title, model, ms, createdAt⟩) := rfl
    rw [h, decodeMsgList_encode]
    rfl

theorem decodeChatList_encode (cs : List Chat) :
    decodeChatList (cs.map encodeChat) = some cs := by
  induction cs with
  | nil => rfl
  | cons c cs ih => simp [decodeChatList, decodeChat_encodeChat c, ih]

/-- Amended C3: rehydrating the serialized session collection yields
field-for-field equal data — including `isStreaming` exactly as it was
at serialization time; no reconciliation happens on load. -/
theorem persist_roundtrip_identity (s : StoreState) : decodeState (encodeState s) = some s := by
  cases s with
  | mk chats currentChatId =>
    cases currentChatId with
    | none =>
      have h : decodeState (encodeState ⟨chats, none⟩)
          = (decodeChatList (chats.map encodeChat)).bind (fun cs => some ⟨cs, none⟩) := rfl
      rw [h, decodeChatList_encode]
      rfl
    | some i =>
      have h : decodeState (encodeState ⟨chats, some i⟩)
          = (decodeChatList (chats.map encodeChat)).bind (fun cs => some ⟨cs, some i⟩) := rfl
      rw [h, decodeChatList_encode]
      rfl

/-- A session collection holding one mid-stream message. -/
def c3state : StoreState :=
  { chats :=
      [{ id := "c0", title := "Empty", model := "m1", messages := [], createdAt := "t0" },
       { id := "c1", title := "One", model := "m1",
         messages := [{ text := "hi", sender := "user", timestamp := "u1" }],
         createdAt := "t1" },
       { id := "c2", title := "Many", model := "m2",
         messages :=
           [{ text := "q", sender := "user", timestamp := "u2" },
            { text := "a", sender := "ai", timestamp := "a2", isStreaming := some false },
            { text := "part", sender := "ai", timestamp := "a3", isStreaming := some true }],
         createdAt := "t2" }],
    currentChatId := some "c2" }

/-- Counterexample to C3 as stated: the mid-stream message of `c3state`
comes back from the round-trip still marked streaming, not reconciled to
non-streaming — the rehydrated state is the serialized state itself. -/
theorem persist_roundtrip_not_reconciled :
    decodeState (encodeState c3state) ≠ some (reconcileStreaming c3state) ∧
      decodeState (encodeState c3state) = some c3state ∧
      c3state ≠ reconcileStreaming c3state := by
  refine ⟨by decide, by decide, by decide⟩

/-! ## Claim C4 — trailing unterminated record -/

/-- Code points of an ASCII string as a byte chunk. -/
def asciiBytes (s : String) : List Nat := s.data.map Char.toNat

/-- The stream's only payload: a well-formed record with a content
delta, not terminated by a newline. -/
def c4bytes : List Nat := asciiBytes "\x7b\"message\":\x7b\"content\":\"Hi\"\x7d\x7d"

/-- A store holding one empty session. -/
def c4state : StoreState :=
  { chats := [{ id := "c1", title := "T", model := "m1", messages := [], createdAt := "t0" }],
    currentChatId := some "c1" }

/-- C4, divergence: after a clean stream end whose buffer still holds
the unterminated record `{"message":{"content":"Hi"}}`, the flush step
parses it and appends `"Hi"` to the **local** `aiText`, but the store's
assistant message still has text `""` — the source has no `set` call in
the flush block (only the comment `// Update state with final content`),
so the final delta never reaches the store. -/
theorem trailing_flush_not_stored :
    (flushBuffer (runStream "a1" {} [c4bytes]).1).aiText = "Hi" ∧
      (sendMessage c4state "c1" "hi" "u1" "a1" (StreamOutcome.stream [c4bytes] none)).1 =
        { chats := [{ id := "c1", title := "T", model := "m1",
                      messages :=
                        [{ text := "hi", sender := "user", timestamp := "u1" },
                         { text := "", sender := "ai", timestamp := "a1",
                           isStreaming := some false }],
                      createdAt := "t0" }],
          currentChatId := some "c1" } := by
  exact ⟨rfl, rfl⟩

/-! ## Claim C5 — request body construction -/

/-- C5: on an existing session, the request body's `messages` are
exactly the session's pre-call history — the just-appended user message
(and the placeholder) are absent, because the source captured `chat`
before appending, and the `filter` on the fresh uuid timestamp removes
nothing — with `user`-sent messages mapped to role `"user"`, all others
(`"ai"`) to `"assistant"`, followed by the new text exactly once as the
final user turn. -/
theorem request_body_prior_history (s : StoreState) (chatId messageText userTs aiTs : String)
    (outcome : StreamOutcome) (chat : Chat)
    (hfind : s.chats.find? (fun c => c.id == chatId) = some chat)
    (hfresh : ∀ m ∈ chat.messages, m.timestamp ≠ userTs) :
    ∃ es, sendMessageRun s chatId messageText userTs aiTs outcome =
      some (es,
        chat.messages.map (fun m =>
          { role := if m.sender == "user" then "user" else "assistant", content := m.text })
        ++ [{ role := "user", content := messageText }]) := by
  have hft : chat.messages.filter (fun m => m.timestamp != userTs) = chat.messages :=
    List.filter_eq_self.mpr (by intro m hm; simpa using hfresh m hm)
  simp only [sendMessageRun, requestMessages, hfind, hft]
  cases outcome with
  | httpError msg => exact ⟨_, rfl⟩
  | stream chunks readError => cases readError <;> exact ⟨_, rfl⟩

/-- Witness for C5: a session with one user and one assistant turn. -/
theorem request_body_prior_history_witness :
    ∃ es,
      sendMessageRun
        { chats := [{ id := "c1", title := "T", model := "m1",
                      messages :=
                        [{ text := "q", sender := "user", timestamp := "u0" },
                         { text := "a", sender := "ai", timestamp := "a0",
                           isStreaming := some false }],
                      createdAt := "t0" }],
          currentChatId := some "c1" }
        "c1" "next" "u1" "a1" (StreamOutcome.stream [] none)
      = some (es,
          [{ role := "user", content := "q" }, { role := "assistant", content := "a" },
           { role := "user", content := "next" }]) :=
  request_body_prior_history _ "c1" "next" "u1" "a1" _
    { id := "c1", title := "T", model := "m1",
      messages :=
        [{ text := "q", sender := "user", timestamp := "u0" },
         { text := "a", sender := "ai", timestamp := "a0", isStreaming := some false }],
      createdAt := "t0" }
    (by rfl) (by decide)

/-! ## Claim C1 — finalize runs exactly once, last -/

theorem applyEvents_concat (chatId : String) (s : StoreState) (es : List SendEvent)
    (e : SendEvent) :
    applyEvents chatId s (es ++ [e]) = applyEvent chatId (applyEvents chatId s es) e := by
  simp [applyEvents, List.foldl_append]

/-- Reshape a two-event tail into a single concatenated last event. -/
theorem append_two_eq {α : Type} (l : List α) (w z : α) :
    l ++ [w, z] = (l ++ [w]) ++ [z] := by simp

/-- C1: whenever the session lookup succeeds (so the placeholder
assistant message is appended), the event list of the call contains the
finalize `set` exactly once, it is the very last mutation — for a
successful stream, a stream that errors mid-read, and an outright
connection failure alike — and after it every message of the target chat
carrying the placeholder's identity key has `isStreaming = false`. -/
theorem sendMessage_finalize_once (s : StoreState) (chatId messageText userTs aiTs : String)
    (outcome : StreamOutcome) (chat : Chat)
    (hfind : s.chats.find? (fun c => c.id == chatId) = some chat) :
    ∃ es req, sendMessageRun s chatId messageText userTs aiTs outcome = some (es, req) ∧
      es.countP SendEvent.isFinalize = 1 ∧
      es.getLast? = some (SendEvent.finalize aiTs) ∧
      ∀ c ∈ (applyEvents chatId s es).chats, c.id = chatId →
        ∀ m ∈ c.messages, m.timestamp = aiTs → m.isStreaming = some false := by
  unfold sendMessageRun
  rw [hfind]
  have hdeltas : ∀ (st : LoopState) (chunks : List (List Nat)),
      (runStream aiTs st chunks).2.countP SendEvent.isFinalize = 0 := by
    intro st chunks
    exact List.countP_eq_zero.mpr (fun e he =>
      by simpa using isDelta_not_isFinalize e (runStream_events_delta aiTs st chunks e he))
  cases outcome with
  | httpError msg =>
    refine ⟨_, _, rfl, by rfl, by rfl, ?_⟩
    exact applyEvent_finalize_clears chatId aiTs _
  | stream chunks readError =>
    cases readError with
    | none =>
      refine ⟨_, _, rfl, ?_, ?_, ?_⟩
      · simp only [List.countP_cons, List.countP_append, hdeltas,
          SendEvent.isFinalize, List.countP_nil]
        rfl
      · exact List.getLast?_concat _
      · rw [applyEvents_concat]
        exact applyEvent_finalize_clears chatId aiTs _
    | some msg =>
      refine ⟨_, _, rfl, ?_, ?_, ?_⟩
      · simp only [List.countP_cons, List.countP_append, hdeltas,
          SendEvent.isFinalize, List.countP_nil]
        rfl
      · rw [append_two_eq]
        exact List.getLast?_concat _
      · rw [append_two_eq, applyEvents_concat]
        exact applyEvent_finalize_clears chatId aiTs _

/-- Witness for C1 on a stream that errors after one delivered chunk. -/
theorem sendMessage_finalize_once_witness :
    ∃ es req,
      sendMessageRun
        { chats := [{ id := "c1", title := "T", model := "m1", messages := [],
                      createdAt := "t0" }], currentChatId := some "c1" }
        "c1" "hi" "u1" "a1"
        (StreamOutcome.stream [asciiBytes "\x7b\"message\":\x7b\"content\":\"He\"\x7d\x7d\n"]
          (some "network error"))
      = some (es, req) ∧
      es.countP SendEvent.isFinalize = 1 ∧
      es.getLast? = some (SendEvent.finalize "a1") ∧
      ∀ c ∈ (applyEvents "c1"
          { chats := [{ id := "c1", title := "T", model := "m1", messages := [],
                        createdAt := "t0" }], currentChatId := some "c1" } es).chats,
        c.id = "c1" → ∀ m ∈ c.messages, m.timestamp = "a1" → m.isStreaming = some false :=
  sendMessage_finalize_once _ "c1" "hi" "u1" "a1" _
    { id := "c1", title := "T", model := "m1", messages := [], createdAt := "t0" }
    (by rfl)

/-! ## Claim C2 — two-line stream yields "Hello" -/

/-- The simulated stream payload of the claim: two newline-terminated
content records. -/
def c2bytes : List Nat :=
  asciiBytes "\x7b\"message\":\x7b\"content\":\"He\"\x7d\x7d\n\x7b\"message\":\x7b\"content\":\"llo\"\x7d\x7d\n"

set_option maxRecDepth 10000 in
/-- C2: for a `sendMessage` whose stream delivers exactly
`{"message":{"content":"He"}}` and `{"message":{"content":"llo"}}` as
newline-terminated lines and then ends, the target chat ends up holding
the placeholder assistant message with text `"Hello"` and
`isStreaming = false`. -/
theorem sendMessage_stream_hello (s : StoreState) (chatId messageText userTs aiTs : String)
    (chat : Chat) (hfind : s.chats.find? (fun c => c.id == chatId) = some chat) :
    ∃ c ∈ (sendMessage s chatId messageText userTs aiTs
        (StreamOutcome.stream [c2bytes] none)).1.chats,
      c.id = chatId ∧ ∃ m ∈ c.messages,
        m.timestamp = aiTs ∧ m.text = "Hello" ∧ m.isStreaming = some false := by
  have hmem : chat ∈ s.chats := List.mem_of_find?_eq_some hfind
  have hid : chat.id = chatId := by simpa using List.find?_some hfind
  have hrs : runStream aiTs ({} : LoopState) [c2bytes]
      = ({ dec := {}, buf := [], aiText := "Hello", tokenQuarters := 5 },
         [SendEvent.applyDelta aiTs "He", SendEvent.applyDelta aiTs "Hello"]) := rfl
  simp only [sendMessage, sendMessageRun, hfind, hrs]
  rw [applyEvents_eq_map]
  refine ⟨_, List.mem_map_of_mem _ hmem, ?_, ?_⟩
  · simp only [hid, beq_self_eq_true, if_true, applyEventsChat_id]
  · simp only [hid, beq_self_eq_true, if_true]
    simp only [applyEventsChat, List.foldl_cons, List.foldl_nil, List.append_nil,
      List.cons_append, List.nil_append, eventChatUpdate]
    refine ⟨_, List.mem_map_of_mem _ (List.mem_map_of_mem _ (List.mem_map_of_mem _
      (List.mem_append_right _ (List.mem_singleton.mpr rfl)))), ?_⟩
    simp

set_option maxRecDepth 10000 in
/-- Witness for C2 at a concrete one-chat store. -/
theorem sendMessage_stream_hello_witness :
    ∃ c ∈ (sendMessage
        { chats := [{ id := "c1", title := "T", model := "m1", messages := [],
                      createdAt := "t0" }],
          currentChatId := some "c1" } "c1" "hi" "u1" "a1"
        (StreamOutcome.stream [c2bytes] none)).1.chats,
      c.id = "c1" ∧ ∃ m ∈ c.messages,
        m.timestamp = "a1" ∧ m.text = "Hello" ∧ m.isStreaming = some false :=
  sendMessage_stream_hello _ "c1" "hi" "u1" "a1" _ (by rfl)

/-! ## Claim C6 — malformed lines are skipped, deltas applied in order -/

/-- A blank line can never parse: after stripping JSON whitespace only
`\v`/`\f` characters (JS-blank but not JSON-whitespace) or nothing can
remain, neither of which starts a JSON value. -/
theorem parseVal_blank (l : List Char) (hall : l.all jsWs) (fuel : Nat) :
    parseVal fuel (skipWs l) = none := by
  induction l with
  | nil => cases fuel <;> rfl
  | cons c cs ih =>
    simp only [List.all_cons, Bool.and_eq_true] at hall
    obtain ⟨hc, hcs⟩ := hall
    by_cases hj : jsonWs c
    · simpa only [skipWs, hj, if_pos] using ih hcs
    · have hvf : c = Char.ofNat 11 ∨ c = Char.ofNat 12 := by
        simp only [jsWs, decide_eq_true_eq] at hc
        simp only [jsonWs, decide_eq_true_eq, not_or] at hj
        rcases hc with h | h | h | h | h | h <;> simp_all
      simp only [skipWs, hj, Bool.false_eq_true, if_neg, not_false_eq_true]
      rcases hvf with rfl | rfl <;> cases fuel <;> rfl

theorem jsonParse_blank (l : List Char) (h : isBlank l) : jsonParse l = none := by
  unfold jsonParse
  rw [parseVal_blank l h]

theorem lineDelta_blank (l : List Char) (h : isBlank l) : lineDelta l = none := by
  unfold lineDelta
  rw [jsonParse_blank l h]

/-- A line whose `JSON.parse` throws contributes nothing: the state and
the event list are untouched and processing continues (total function). -/
theorem processLine_malformed (aiTs : String) (st : String × Nat) (l : List Char)
    (hl : jsonParse l = none) : processLine aiTs st l = (st, []) := by
  unfold processLine
  by_cases hb : isBlank l
  · simp [hb]
  · simp [hb, lineDelta, hl]

/-- The cumulative delta events issued for a list of accepted contents:
each delta extends the accumulated text and issues one `set`. -/
def deltaEvents (aiTs acc : String) : List String → List SendEvent
  | [] => []
  | d :: ds => SendEvent.applyDelta aiTs (acc ++ d) :: deltaEvents aiTs (acc ++ d) ds

theorem processLines_filter_wellFormed (aiTs : String) (st : String × Nat)
    (lines : List (List Char)) :
    processLines aiTs st lines
      = processLines aiTs st (lines.filter (fun l => (jsonParse l).isSome)) := by
  induction lines generalizing st with
  | nil => rfl
  | cons l ls ih =>
    by_cases hb : isBlank l
    · have hp : jsonParse l = none := jsonParse_blank l hb
      simp only [processLines, processLine, hb, if_pos, List.filter_cons, hp,
        Option.isSome_none, Bool.false_eq_true, if_neg, not_false_eq_true, List.nil_append]
      exact ih st
    · cases hp : jsonParse l with
      | none =>
        simp only [processLines, processLine_malformed aiTs st l hp, List.filter_cons, hp,
          Option.isSome_none, Bool.false_eq_true, if_neg, not_false_eq_true, List.nil_append]
        exact ih st
      | some v =>
        simp only [processLines, List.filter_cons, hp, Option.isSome_some, if_pos]
        rw [ih]

theorem processLines_deltaEvents (aiTs : String) (st : String × Nat)
    (lines : List (List Char)) :
    (processLines aiTs st lines).2 = deltaEvents aiTs st.1 (lines.filterMap lineDelta) := by
  induction lines generalizing st with
  | nil => rfl
  | cons l ls ih =>
    by_cases hb : isBlank l
    · simp only [processLines, processLine, hb, if_pos, List.filterMap_cons,
        lineDelta_blank l hb, List.nil_append]
      exact ih st
    · cases hld : lineDelta l with
      | none =>
        simp only [processLines, processLine, hb, Bool.false_eq_true, if_neg,
          not_false_eq_true, hld, List.filterMap_cons, List.nil_append]
        exact ih st
      | some d =>
        simp only [processLines, processLine, hb, Bool.false_eq_true, if_neg,
          not_false_eq_true, hld, List.filterMap_cons, deltaEvents, List.singleton_append]
        exact congrArg _ (ih (st.1 ++ d, st.2 + d.length))

/-- C6: in any sequence of complete lines, the malformed ones (those
`JSON.parse` rejects) are inert — processing the sequence equals
processing only the lines that parse, each malformed line leaves the
state untouched and aborts nothing — and the `set` events issued are
exactly the content deltas of the well-formed lines, in order, applied
cumulatively. -/
theorem malformed_lines_no_delta (aiTs : String) (st : String × Nat)
    (lines : List (List Char)) :
    processLines aiTs st lines
        = processLines aiTs st (lines.filter (fun l => (jsonParse l).isSome)) ∧
      (processLines aiTs st lines).2 = deltaEvents aiTs st.1 (lines.filterMap lineDelta) ∧
      ∀ l ∈ lines, jsonParse l = none →
        ∀ st2 : String × Nat, processLine aiTs st2 l = (st2, []) :=
  ⟨processLines_filter_wellFormed aiTs st lines,
   processLines_deltaEvents aiTs st lines,
   fun l _ hl st2 => processLine_malformed aiTs st2 l hl⟩

/-- Witness for C6: a malformed line between two well-formed ones. -/
theorem malformed_lines_no_delta_witness :
    processLines "a1" ("", 0)
        ["\x7b\"message\":\x7b\"content\":\"He\"\x7d\x7d".data, "not json".data,
         "\x7b\"message\":\x7b\"content\":\"llo\"\x7d\x7d".data]
      = processLines "a1" ("", 0)
          (["\x7b\"message\":\x7b\"content\":\"He\"\x7d\x7d".data, "not json".data,
            "\x7b\"message\":\x7b\"content\":\"llo\"\x7d\x7d".data].filter
            (fun l => (jsonParse l).isSome)) ∧
      (processLines "a1" ("", 0)
          ["\x7b\"message\":\x7b\"content\":\"He\"\x7d\x7d".data, "not json".data,
           "\x7b\"message\":\x7b\"content\":\"llo\"\x7d\x7d".data]).2
        = [SendEvent.applyDelta "a1" "He", SendEvent.applyDelta "a1" "Hello"] ∧
      processLine "a1" ("He", 2) ("not json".data) = (("He", 2), []) := by
  have h := malformed_lines_no_delta "a1" ("", 0)
    ["\x7b\"message\":\x7b\"content\":\"He\"\x7d\x7d".data, "not json".data,
     "\x7b\"message\":\x7b\"content\":\"llo\"\x7d\x7d".data]
  exact ⟨h.1, by rw [h.2.1]; rfl,
    h.2.2 ("not json".data) (by simp) (by rfl) ("He", 2)⟩

/-! ## Claim C9 — at most one streaming message per session -/

/-- Number of messages of a session currently marked streaming. -/
def streamingCount (c : Chat) : Nat :=
  c.messages.countP (fun m => m.isStreaming == some true)

/-- The claimed invariant: every session has at most one streaming
message. -/
def streamingOk (s : StoreState) : Prop := ∀ c ∈ s.chats, streamingCount c ≤ 1

/-- A store satisfying the invariant: one session, one in-flight reply. -/
def c9state : StoreState :=
  { chats := [{ id := "c1", title := "T", model := "m1",
                messages := [{ text := "", sender := "ai", timestamp := "a1",
                               isStreaming := some true }],
                createdAt := "t0" }],
    currentChatId := some "c1" }

/-- A second streaming message, as `addMessage` happily accepts. -/
def c9msg : Message :=
  { text := "", sender := "ai", timestamp := "a2", isStreaming := some true }

/-- Counterexample to C9 as stated: `addMessage` appends an arbitrary
already-constructed message with no streaming guard, so one call takes a
store satisfying the at-most-one-streaming invariant to a session with
two streaming messages — the invariant is not preserved by every store
operation. -/
theorem addMessage_breaks_streaming_invariant :
    streamingOk c9state ∧ ¬ streamingOk (addMessage c9state "c1" c9msg) ∧
      streamingCount ((addMessage c9state "c1" c9msg).chats.headI) = 2 := by
  refine ⟨?_, ?_, by decide⟩ <;> unfold streamingOk <;> decide

/-! The amended statement: start from sessions with no streaming
message (the state `sendMessage` is designed for); then over the whole
trace of one call every session holds at most one streaming message,
and at the end none.  The lemmas below walk the event trace. -/

/-- Does the event append a message (the only way a count can grow)? -/
def SendEvent.isAppend : SendEvent → Bool
  | .appendUser _ => true
  | .appendAi _ => true
  | _ => false

theorem streamingCount_upd_le (e : SendEvent) (he : ¬ e.isAppend) (c : Chat) :
    streamingCount (eventChatUpdate e c) ≤ streamingCount c := by
  cases e with
  | appendUser m => simp [SendEvent.isAppend] at he
  | appendAi m => simp [SendEvent.isAppend] at he
  | applyDelta ts txt =>
    simp only [streamingCount, eventChatUpdate, List.countP_map]
    apply Nat.le_of_eq
    apply List.countP_congr
    intro m _
    by_cases h : m.timestamp == ts <;> simp [Function.comp, h]
  | markError ts err =>
    simp only [streamingCount, eventChatUpdate, List.countP_map]
    apply List.countP_mono_left
    intro m _
    by_cases h : m.timestamp == ts <;> simp [Function.comp, h]
  | finalize ts =>
    simp only [streamingCount, eventChatUpdate, List.countP_map]
    apply List.countP_mono_left
    intro m _
    by_cases h : m.timestamp == ts <;> simp [Function.comp, h]

theorem streamingCount_applyEventsChat_le (es : List SendEvent)
    (hes : ∀ e ∈ es, ¬ e.isAppend) (c : Chat) :
    streamingCount (applyEventsChat es c) ≤ streamingCount c := by
  induction es generalizing c with
  | nil => exact Nat.le_refl _
  | cons e es ih =>
    rw [applyEventsChat_cons]
    exact Nat.le_trans (ih (fun e2 h2 => hes e2 (List.mem_cons_of_mem e h2)) _)
      (streamingCount_upd_le e (hes e (List.mem_cons_self e es)) c)

/-- Every streaming message of the session carries the placeholder's
key. -/
def streamOnlyAt (aiTs : String) (c : Chat) : Prop :=
  ∀ m ∈ c.messages, m.isStreaming = some true → m.timestamp = aiTs

theorem streamOnlyAt_upd (aiTs : String) (e : SendEvent) (he : ¬ e.isAppend) (c : Chat)
    (hc : streamOnlyAt aiTs c) : streamOnlyAt aiTs (eventChatUpdate e c) := by
  cases e with
  | appendUser m => simp [SendEvent.isAppend] at he
  | appendAi m => simp [SendEvent.isAppend] at he
  | applyDelta ts txt =>
    intro m hm hstr
    simp only [eventChatUpdate, List.mem_map] at hm
    obtain ⟨m0, hm0, rfl⟩ := hm
    by_cases h : m0.timestamp == ts <;> simp_all [hc m0 hm0]
  | markError ts err =>
    intro m hm hstr
    simp only [eventChatUpdate, List.mem_map] at hm
    obtain ⟨m0, hm0, rfl⟩ := hm
    by_cases h : m0.timestamp == ts <;> simp_all [hc m0 hm0]
  | finalize ts =>
    intro m hm hstr
    simp only [eventChatUpdate, List.mem_map] at hm
    obtain ⟨m0, hm0, rfl⟩ := hm
    by_cases h : m0.timestamp == ts <;> simp_all [hc m0 hm0]

theorem streamOnlyAt_applyEventsChat (aiTs : String) (es : List SendEvent)
    (hes : ∀ e ∈ es, ¬ e.isAppend) (c : Chat) (hc : streamOnlyAt aiTs c) :
    streamOnlyAt aiTs (applyEventsChat es c) := by
  induction es generalizing c with
  | nil => exact hc
  | cons e es ih =>
    rw [applyEventsChat_cons]
    exact ih (fun e2 h2 => hes e2 (List.mem_cons_of_mem e h2)) _
      (streamOnlyAt_upd aiTs e (hes e (List.mem_cons_self e es)) c hc)

/-- Clearing the placeholder's key finalizes the only streaming
message: the count drops to zero. -/
theorem streamingCount_finalize_zero (aiTs : String) (c : Chat)
    (hq : streamOnlyAt aiTs c) :
    streamingCount (eventChatUpdate (SendEvent.finalize aiTs) c) = 0 := by
  simp only [streamingCount, eventChatUpdate, List.countP_map]
  rw [List.countP_eq_zero]
  intro m hm
  by_cases h : m.timestamp == aiTs
  · simp [Function.comp, h]
  · simp only [Function.comp, h, Bool.false_eq_true, if_neg, not_false_eq_true,
      beq_iff_eq]
    intro habs
    exact absurd (hq m hm habs) (by simpa using h)

theorem streamingCount_eq_zero_iff (c : Chat) :
    streamingCount c = 0 ↔ ∀ m ∈ c.messages, ¬ m.isStreaming = some true := by
  simp [streamingCount, List.countP_eq_zero]

theorem isDelta_not_isAppend (e : SendEvent) (h : e.isDelta) : ¬ e.isAppend := by
  cases e <;> simp_all [SendEvent.isDelta, SendEvent.isAppend]

/-- Master walk of one `sendMessage` trace at the level of the target
chat: append user (non-streaming), append the placeholder, then only
delta/markError/finalize events with a final `finalize aiTs`.  From a
session with no streaming message, every prefix has at most one and the
full trace ends with none. -/
theorem chat_events_bound (aiTs : String) (u : Message) (hu : u.isStreaming = none)
    (mid tail : List SendEvent) (hmid : ∀ e ∈ mid, e.isDelta)
    (htail : tail = [SendEvent.finalize aiTs] ∨
      ∃ err, tail = [SendEvent.markError aiTs err, SendEvent.finalize aiTs])
    (c : Chat) (h0 : streamingCount c = 0) :
    (∀ k, streamingCount (applyEventsChat
        ((SendEvent.appendUser u :: SendEvent.appendAi
            { text := "", sender := "ai", timestamp := aiTs, isStreaming := some true } ::
          (mid ++ tail)).take k) c) ≤ 1) ∧
      streamingCount (applyEventsChat
        (SendEvent.appendUser u :: SendEvent.appendAi
            { text := "", sender := "ai", timestamp := aiTs, isStreaming := some true } ::
          (mid ++ tail)) c) = 0 := by
  have htail' : ∀ e ∈ tail, ¬ e.isAppend := by
    rcases htail with rfl | ⟨err, rfl⟩
    · intro e he
      simp only [List.mem_singleton] at he
      subst he
      simp [SendEvent.isAppend]
    · intro e he
      simp only [List.mem_cons, List.not_mem_nil, or_false] at he
      rcases he with rfl | rfl <;> simp [SendEvent.isAppend]
  have hrest : ∀ e ∈ mid ++ tail, ¬ e.isAppend := by
    intro e he
    rcases List.mem_append.mp he with hm | ht
    · exact isDelta_not_isAppend e (hmid e hm)
    · exact htail' e ht
  have hcu : streamingCount (eventChatUpdate (SendEvent.appendUser u) c) = 0 := by
    simp only [streamingCount, eventChatUpdate, List.countP_append, List.countP_cons,
      List.countP_nil, hu] at h0 ⊢
    simp [h0]
  have hc2 : streamingCount (applyEventsChat
      [SendEvent.appendUser u, SendEvent.appendAi
        { text := "", sender := "ai", timestamp := aiTs, isStreaming := some true }] c) = 1 := by
    simp only [streamingCount] at h0
    simp [applyEventsChat, streamingCount, eventChatUpdate, List.countP_append,
      List.countP_cons, List.countP_nil, hu, h0]
  have hQ2 : streamOnlyAt aiTs (applyEventsChat
      [SendEvent.appendUser u, SendEvent.appendAi
        { text := "", sender := "ai", timestamp := aiTs, isStreaming := some true }] c) := by
    intro m hm hstr
    simp only [applyEventsChat, List.foldl_cons, List.foldl_nil, eventChatUpdate] at hm
    rcases List.mem_append.mp hm with hm' | hm'
    · rcases List.mem_append.mp hm' with h1 | h2
      · exact absurd hstr ((streamingCount_eq_zero_iff c).mp h0 m h1)
      · simp only [List.mem_singleton] at h2
        subst h2
        rw [hu] at hstr
        exact absurd hstr (by simp)
    · simp only [List.mem_singleton] at hm'
      subst hm'
      rfl
  constructor
  · intro k
    match k with
    | 0 =>
      simpa [applyEventsChat_nil] using Nat.le_of_eq h0 |>.trans (Nat.le_succ 0)
    | 1 =>
      rw [List.take_succ_cons, List.take_zero]
      rw [show applyEventsChat [SendEvent.appendUser u] c
          = eventChatUpdate (SendEvent.appendUser u) c from rfl, hcu]
      exact Nat.zero_le 1
    | (j + 2) =>
      rw [List.take_succ_cons, List.take_succ_cons]
      have hsplit : applyEventsChat
          (SendEvent.appendUser u :: SendEvent.appendAi
            { text := "", sender := "ai", timestamp := aiTs, isStreaming := some true } ::
            (mid ++ tail).take j) c
          = applyEventsChat ((mid ++ tail).take j)
              (applyEventsChat
                [SendEvent.appendUser u, SendEvent.appendAi
                  { text := "", sender := "ai", timestamp := aiTs,
                    isStreaming := some true }] c) := rfl
      rw [hsplit]
      exact Nat.le_trans
        (streamingCount_applyEventsChat_le _
          (fun e he => hrest e (List.take_subset j (mid ++ tail) he)) _)
        (Nat.le_of_eq hc2)
  · have key : applyEventsChat
        (SendEvent.appendUser u :: SendEvent.appendAi
          { text := "", sender := "ai", timestamp := aiTs, isStreaming := some true } ::
          (mid ++ tail)) c
        = applyEventsChat tail
            (applyEventsChat mid
              (applyEventsChat
                [SendEvent.appendUser u, SendEvent.appendAi
                  { text := "", sender := "ai", timestamp := aiTs,
                    isStreaming := some true }] c)) := by
      rw [applyEventsChat_cons, applyEventsChat_cons, applyEventsChat_append]
      rfl
    rw [key]
    have hQmid := streamOnlyAt_applyEventsChat aiTs mid
      (fun e he => isDelta_not_isAppend e (hmid e he)) _ hQ2
    rcases htail with rfl | ⟨err, rfl⟩
    · exact streamingCount_finalize_zero aiTs _ hQmid
    · rw [show (applyEventsChat
            [SendEvent.markError aiTs err, SendEvent.finalize aiTs] _ : Chat)
          = eventChatUpdate (SendEvent.finalize aiTs)
              (eventChatUpdate (SendEvent.markError aiTs err) _) from rfl]
      exact streamingCount_finalize_zero aiTs _
        (streamOnlyAt_upd aiTs _ (by simp [SendEvent.isAppend]) _ hQmid)

/-- Amended C9: the at-most-one-streaming invariant is **not** preserved
by every store operation (`addMessage` can insert a second streaming
message — see the counterexample), but it holds along a `sendMessage`
call on a store whose sessions have no in-flight reply: every prefix of
the call's mutation trace leaves each session with at most one streaming
message (the placeholder), and the completed call leaves none. -/
theorem sendMessage_streaming_bound (s : StoreState)
    (chatId messageText userTs aiTs : String) (outcome : StreamOutcome)
    (es : List SendEvent) (req : List WireMessage)
    (h0 : ∀ c ∈ s.chats, streamingCount c = 0)
    (hrun : sendMessageRun s chatId messageText userTs aiTs outcome = some (es, req)) :
    (∀ k, ∀ c ∈ (applyEvents chatId s (es.take k)).chats, streamingCount c ≤ 1) ∧
      ∀ c ∈ (applyEvents chatId s es).chats, streamingCount c = 0 := by
  have hshape : ∃ mid tail, (∀ e ∈ mid, e.isDelta) ∧
      (tail = [SendEvent.finalize aiTs] ∨
        ∃ err, tail = [SendEvent.markError aiTs err, SendEvent.finalize aiTs]) ∧
      es = SendEvent.appendUser
            { text := messageText, sender := "user", timestamp := userTs,
              isStreaming := none } ::
          SendEvent.appendAi
            { text := "", sender := "ai", timestamp := aiTs, isStreaming := some true } ::
          (mid ++ tail) := by
    unfold sendMessageRun at hrun
    cases hf : s.chats.find? (fun c => c.id == chatId) with
    | none =>
      rw [hf] at hrun
      exact absurd hrun (by simp)
    | some chat =>
      rw [hf] at hrun
      cases outcome with
      | httpError msg =>
        refine ⟨[], [SendEvent.markError aiTs ("Error: " ++ msg), SendEvent.finalize aiTs],
          by simp, Or.inr ⟨_, rfl⟩, ?_⟩
        have h1 := (Option.some.inj hrun)
        have h2 := congrArg Prod.fst h1
        simpa using h2.symm
      | stream chunks readError =>
        cases readError with
        | none =>
          refine ⟨(runStream aiTs {} chunks).2, [SendEvent.finalize aiTs],
            runStream_events_delta aiTs {} chunks, Or.inl rfl, ?_⟩
          have h1 := (Option.some.inj hrun)
          have h2 := congrArg Prod.fst h1
          simpa using h2.symm
        | some msg =>
          refine ⟨(runStream aiTs {} chunks).2,
            [SendEvent.markError aiTs ("Error: " ++ msg), SendEvent.finalize aiTs],
            runStream_events_delta aiTs {} chunks, Or.inr ⟨_, rfl⟩, ?_⟩
          have h1 := (Option.some.inj hrun)
          have h2 := congrArg Prod.fst h1
          simpa using h2.symm
  obtain ⟨mid, tail, hmid, htail, rfl⟩ := hshape
  constructor
  · intro k c hc
    rw [applyEvents_eq_map] at hc
    obtain ⟨c0, hc0, rfl⟩ := List.mem_map.mp hc
    by_cases hid : c0.id == chatId
    · simp only [hid, if_pos]
      exact (chat_events_bound aiTs _ rfl mid tail hmid htail c0 (h0 c0 hc0)).1 k
    · simp only [hid, Bool.false_eq_true, if_neg, not_false_eq_true]
      rw [h0 c0 hc0]
      exact Nat.zero_le 1
  · intro c hc
    rw [applyEvents_eq_map] at hc
    obtain ⟨c0, hc0, rfl⟩ := List.mem_map.mp hc
    by_cases hid : c0.id == chatId
    · simp only [hid, if_pos]
      exact (chat_events_bound aiTs _ rfl mid tail hmid htail c0 (h0 c0 hc0)).2
    · simp only [hid, Bool.false_eq_true, if_neg, not_false_eq_true]
      exact h0 c0 hc0

set_option maxRecDepth 10000 in
/-- Witness for the amended C9 at a concrete store and stream. -/
theorem sendMessage_streaming_bound_witness :
    (∀ k, ∀ c ∈ (applyEvents "c1"
        { chats := [{ id := "c1", title := "T", model := "m1", messages := [],
                      createdAt := "t0" }], currentChatId := some "c1" }
        (([SendEvent.appendUser
              { text := "hi", sender := "user", timestamp := "u1", isStreaming := none },
            SendEvent.appendAi
              { text := "", sender := "ai", timestamp := "a1", isStreaming := some true },
            SendEvent.applyDelta "a1" "He", SendEvent.applyDelta "a1" "Hello",
            SendEvent.finalize "a1"]).take k)).chats,
        streamingCount c ≤ 1) ∧
      ∀ c ∈ (applyEvents "c1"
          { chats := [{ id := "c1", title := "T", model := "m1", messages := [],
                        createdAt := "t0" }], currentChatId := some "c1" }
          [SendEvent.appendUser
              { text := "hi", sender := "user", timestamp := "u1", isStreaming := none },
            SendEvent.appendAi
              { text := "", sender := "ai", timestamp := "a1", isStreaming := some true },
            SendEvent.applyDelta "a1" "He", SendEvent.applyDelta "a1" "Hello",
            SendEvent.finalize "a1"]).chats,
        streamingCount c = 0 :=
  sendMessage_streaming_bound
    { chats := [{ id := "c1", title := "T", model := "m1", messages := [],
                  createdAt := "t0" }], currentChatId := some "c1" }
    "c1" "hi" "u1" "a1" (StreamOutcome.stream [c2bytes] none) _ _
    (by decide) (by rfl)

/-! ## Claim C7 — chunk-boundary independence -/

/-- Stateful decoding composes over chunk concatenation. -/
theorem utf8Feed_append (st : DecState) (a b : List Nat) :
    utf8Feed st (a ++ b)
      = ((utf8Feed (utf8Feed st a).1 b).1,
         (utf8Feed st a).2 ++ (utf8Feed (utf8Feed st a).1 b).2) := by
  induction a generalizing st with
  | nil => simp [utf8Feed]
  | cons x a ih =>
    simp only [List.cons_append, utf8Feed, List.append_eq]
    rw [ih]
    simp [List.append_assoc]

/-- The first component of line extraction is empty exactly when the
input holds no newline. -/
theorem extractLines_fst_eq_nil_iff (l : List Char) :
    (extractLines l).1 = [] ↔ '\n' ∉ l := by
  induction l with
  | nil => simp [extractLines]
  | cons c cs ih =>
    by_cases hc : c = '\n'
    · subst hc
      simp [extractLines]
    · cases h1 : (extractLines cs).1 with
      | nil =>
        simp only [extractLines, hc, if_neg, h1, not_false_eq_true, List.mem_cons]
        simpa [hc, Ne.symm hc] using ih.mp h1
      | cons l0 ls =>
        have hin : '\n' ∈ cs := by
          by_contra hno
          rw [ih.mpr hno] at h1
          exact absurd h1 (by simp)
        simp [extractLines, hc, h1, hin]

/-- On newline-free input nothing is extracted and the whole input is
retained as the buffer. -/
theorem extractLines_no_newline (l : List Char) (h : '\n' ∉ l) :
    extractLines l = ([], l) := by
  have h1 := (extractLines_fst_eq_nil_iff l).mpr h
  cases l with
  | nil => rfl
  | cons c cs =>
    have hc : ¬ c = '\n' := fun habs => h (habs ▸ List.mem_cons_self c cs)
    have h2 : (extractLines cs).1 = [] :=
      (extractLines_fst_eq_nil_iff cs).mpr (fun habs => h (List.mem_cons_of_mem c habs))
    simp [extractLines, hc, h2]

/-- The retained buffer never contains a newline. -/
theorem extractLines_snd_no_newline (l : List Char) : '\n' ∉ (extractLines l).2 := by
  induction l with
  | nil => simp [extractLines]
  | cons c cs ih =>
    by_cases hc : c = '\n'
    · subst hc
      simpa [extractLines] using ih
    · cases h1 : (extractLines cs).1 with
      | nil =>
        have hno : '\n' ∉ cs := (extractLines_fst_eq_nil_iff cs).mp h1
        simp only [extractLines, hc, if_neg, not_false_eq_true, h1]
        simp [hc, hno, Ne.symm hc]
      | cons l0 ls =>
        simpa [extractLines, hc, h1] using ih

/-- Line extraction composes: extracting from `x ++ y` yields the lines
of `x` followed by the lines that `x`'s retained buffer prepended to `y`
produces. -/
theorem extractLines_append (x y : List Char) :
    extractLines (x ++ y)
      = ((extractLines x).1 ++ (extractLines ((extractLines x).2 ++ y)).1,
         (extractLines ((extractLines x).2 ++ y)).2) := by
  induction x with
  | nil => simp [extractLines]
  | cons c cs ih =>
    by_cases hc : c = '\n'
    · subst hc
      simp only [List.cons_append, extractLines, if_pos, List.append_eq]
      rw [ih]
    · cases h1 : (extractLines cs).1 with
      | nil =>
        have hx : extractLines (c :: cs) = ([], c :: cs) := by
          simp [extractLines, hc, h1]
        rw [hx]
        simp
      | cons l0 ls =>
        have hx : extractLines (c :: cs) = ((c :: l0) :: ls, (extractLines cs).2) := by
          simp [extractLines, hc, h1]
        rw [hx]
        simp only [List.cons_append, extractLines, hc, if_neg, not_false_eq_true,
          List.append_eq]
        rw [ih, h1]
        simp

/-- The decode/line state of the outer read loop. -/
structure LineState where
  dec : DecState := {}
  buf : List Char := []
deriving Repr, DecidableEq, Inhabited

/-- One outer-loop iteration at the line level: statefully decode the
chunk, extract the complete lines from the buffer, and discard blank
ones (`if (!line.trim()) continue`). -/
def chunkLines (st : LineState) (chunk : List Nat) : LineState × List (List Char) :=
  let d := utf8Feed st.dec chunk
  let e := extractLines (st.buf ++ d.2)
  (⟨d.1, e.2⟩, e.1.filter (fun l => !(isBlank l)))

/-- The complete non-blank lines the loop forwards, over all chunks. -/
def streamLinesFrom (st : LineState) : List (List Nat) → LineState × List (List Char)
  | [] => (st, [])
  | ch :: rest =>
    let r1 := chunkLines st ch
    let r2 := streamLinesFrom r1.1 rest
    (r2.1, r1.2 ++ r2.2)

/-- The full line output of the decoding loop for a chunked stream. -/
def streamLines (chunks : List (List Nat)) : List (List Char) :=
  (streamLinesFrom {} chunks).2

theorem chunkLines_append (st : LineState) (a b : List Nat) :
    chunkLines st (a ++ b)
      = ((chunkLines (chunkLines st a).1 b).1,
         (chunkLines st a).2 ++ (chunkLines (chunkLines st a).1 b).2) := by
  simp only [chunkLines, utf8Feed_append]
  rw [← List.append_assoc, extractLines_append]
  simp [List.filter_append]

/-- Feeding all chunks equals feeding the concatenated byte stream in
one piece, provided the starting buffer is newline-free (as the initial
empty buffer is). -/
theorem streamLinesFrom_join (chunks : List (List Nat)) (st : LineState)
    (hbuf : '\n' ∉ st.buf) :
    streamLinesFrom st chunks = chunkLines st chunks.flatten := by
  induction chunks generalizing st with
  | nil =>
    simp only [streamLinesFrom, List.flatten_nil, chunkLines, utf8Feed,
      List.append_nil, extractLines_no_newline st.buf hbuf]
    rfl
  | cons ch rest ih =>
    simp only [streamLinesFrom, List.flatten_cons]
    rw [chunkLines_append, ih]
    have : '\n' ∉ (chunkLines st ch).1.buf := by
      unfold chunkLines
      exact extractLines_snd_no_newline _
    exact this

/-- C7: two chunkings of the same byte stream produce the same ordered
sequence of complete non-blank lines — the decoder state and the line
buffer carry everything across chunk boundaries, including split
multi-byte sequences. -/
theorem chunk_boundary_independence (c1 c2 : List (List Nat)) (h : c1.flatten = c2.flatten) :
    streamLines c1 = streamLines c2 := by
  unfold streamLines
  rw [streamLinesFrom_join c1 {} (by simp), streamLinesFrom_join c2 {} (by simp), h]

/-- Witness for C7: `"aé\nb"` in UTF-8 with the two bytes of `é` split
across a chunk boundary versus delivered whole. -/
theorem chunk_boundary_independence_witness :
    streamLines [[0x61, 0xC3], [0xA9, 0x0A, 0x62]]
        = streamLines [[0x61, 0xC3, 0xA9, 0x0A, 0x62]] ∧
      streamLines [[0x61, 0xC3], [0xA9, 0x0A, 0x62]] = [['a', 'é']] :=
  ⟨chunk_boundary_independence _ _ (by rfl), by rfl⟩

end Llama
